import Mathlib

/-!
Verification of the bundle-assembly core (`PyInstaller/building/osx.py`,
class `BUNDLE`): spec building (`BUNDLE.__init__`), the metadata writer,
the placement engine, and the signing step of `BUNDLE.assemble`.

The filesystem is modelled as finite maps (association lists) from bundle
destinations to file contents and symlink targets.  External collaborators
(the binary cache `checkCache`, the icon converter, the signer) are
parameters of the model.  Entries are taken after the delegated
`add_suffix_to_extension` normalization step.
-/

namespace PyiOsx

/-! ### Python path semantics

Helpers mirroring the `os.path` / `pathlib` operations the source uses on
internal names: `Path(inm).parts` (we keep the relative-path case: empty
and `.` segments are dropped), `Path(...).name`, `Path(...).suffix`,
`os.path.basename` and `os.path.splitext`. -/

/-- Python `'.' in p` for a path segment `p`. -/
def segHasDot (s : String) : Bool := s.toList.contains '.'

/-- Split a character list at every occurrence of `sep` (Python
`str.split(sep)` for a one-character separator). -/
def splitChar (sep : Char) : List Char → List (List Char)
  | [] => [[]]
  | c :: rest =>
      let r := splitChar sep rest
      if c = sep then [] :: r
      else
        match r with
        | [] => [[c]]
        | s :: ss => (c :: s) :: ss

/-- The separator-delimited pieces of a path string. -/
def pathPieces (s : String) : List String :=
  (splitChar '/' s.toList).map (fun cs => (⟨cs⟩ : String))

/-- `pathlib.PurePosixPath(s).parts` for a relative path string: split on the
separator, dropping empty and `.` components. -/
def pathParts (s : String) : List String :=
  (pathPieces s).filter (fun p => p ≠ "" && p ≠ ".")

/-- `pathlib.PurePosixPath.name`: the final component (empty for an empty path). -/
def pathName (parts : List String) : String := parts.getLast?.getD ""

/-- `pathlib.PurePosixPath.suffix` of a final component `nm`: the part of the
name from the last dot on, empty when the last dot is the first character,
the last character, or absent. -/
def pySuffix (nm : String) : String :=
  let rev := nm.toList.reverse
  let ext := rev.takeWhile (fun c => c ≠ '.')
  match rev.dropWhile (fun c => c ≠ '.') with
  | '.' :: before => if before = [] || ext = [] then "" else ⟨'.' :: ext.reverse⟩
  | _ => ""

/-- `os.path.basename`: everything after the last separator. -/
def osBasename (s : String) : String := (pathPieces s).getLast?.getD ""

/-- The root part of `os.path.splitext` applied to a base name: strip the
extension starting at the last dot, but only when some earlier character of
the name is not a dot (so leading-dot names keep their dot). -/
def splitextRoot (b : String) : String :=
  let rev := b.toList.reverse
  match rev.dropWhile (fun c => c ≠ '.') with
  | '.' :: before => if before.any (fun c => c ≠ '.') then ⟨before.reverse⟩ else b
  | _ => b

/-! ### Data model -/

/-- One manifest row `(inm, fnm, typ)`: internal name, source path, kind
string (`"EXECUTABLE"`, `"EXTENSION"`, `"BINARY"`, `"DATA"`, ...). -/
structure Entry where
  inm : String
  fnm : String
  typ : String
deriving DecidableEq, Repr

/-- The three fixed bundle subdirectories under `Contents`. -/
inductive BDir
  | macos
  | resources
  | frameworks
deriving DecidableEq, Repr

/-- A destination inside the bundle tree: a directory plus a segment path. -/
structure Dest where
  dir : BDir
  segs : List String
deriving DecidableEq, Repr

/-- Association-list lookup (first match). -/
def alLookup {κ α : Type} [DecidableEq κ] (m : List (κ × α)) (k : κ) : Option α :=
  match m with
  | [] => none
  | (k₁, v₁) :: rest => if k₁ = k then some v₁ else alLookup rest k

/-- Association-list update: replace the first binding of `k` in place, or
append a new binding at the end (Python `dict` update semantics; also the
overwrite semantics of `shutil.copy` onto an existing destination). -/
def alUpdate {κ α : Type} [DecidableEq κ] (m : List (κ × α)) (k : κ) (v : α) :
    List (κ × α) :=
  match m with
  | [] => [(k, v)]
  | (k₁, v₁) :: rest => if k₁ = k then (k, v) :: rest else (k₁, v₁) :: alUpdate rest k v

/-- The bundle tree: physical files (destination to copied-in content,
identified by the source path the copy was made from) and symbolic links
(destination to link target).  Plain directories created by `os.makedirs`
calls carry no content and are not tracked. -/
structure FS where
  files : List (Dest × String)
  links : List (Dest × Dest)
deriving DecidableEq, Repr

/-- `Path.exists()` at a destination: a file or a symlink is present there
(links in this model always point at files that exist, so following the
link does not change the answer). -/
def destExists (fs : FS) (d : Dest) : Bool :=
  (alLookup fs.files d).isSome || (alLookup fs.links d).isSome

/-- Trace of the write operations a placement step performs. -/
inductive Action
  | copy (d : Dest) (src : String)
  | link (d : Dest) (target : Dest)
deriving DecidableEq, Repr

/-! ### Placement engine (`BUNDLE.assemble`, item loop) -/

/-- Which placement branch the `if`/`elif`/`else` chain of the loop body
selects. -/
inductive Branch
  | binary
  | data
  | direct
deriving DecidableEq, Repr

/-- The classification of one (normalized) entry, line 188 / 217 / 235:
`typ in ('EXTENSION', 'BINARY') or (typ == 'DATA' and inm_.suffix == '.so')`
selects the binary path; otherwise `typ == 'DATA'` selects the data path;
everything else the direct path. -/
def classify (e : Entry) : Branch :=
  if e.typ = "EXTENSION" ∨ e.typ = "BINARY" ∨
      (e.typ = "DATA" ∧ pySuffix (pathName (pathParts e.inm)) = ".so") then
    Branch.binary
  else if e.typ = "DATA" then
    Branch.data
  else
    Branch.direct

/-- Lines 189-190: in the binary path, if any segment of the internal name's
parent contains a dot, collapse the internal name to its final component. -/
def binDestParts (inm : String) : List String :=
  let parts := pathParts inm
  if (parts.dropLast).any segHasDot then [pathName parts] else parts

/-- Binary path, lines 191-215: run the source file through the external
cache (`cache` parameter), copy the processed file to `FrameworksDir` at the
(possibly collapsed) internal path — the `shutil.copy` on line 208 is
unconditional, the `frame_dst.exists()` check on line 203 only guards
directory creation — then symlink the same `MacOSDir` path to it, guarded by
`macos_dst.exists()` (line 210). -/
def binPlace (cache : Entry → String) (fs : FS) (e : Entry) : FS × List Action :=
  let parts₁ := binDestParts e.inm
  let fnm₁ := cache e
  let frameDst : Dest := ⟨BDir.frameworks, parts₁⟩
  let fs₁ : FS := ⟨alUpdate fs.files frameDst fnm₁, fs.links⟩
  let macosDst : Dest := ⟨BDir.macos, parts₁⟩
  if destExists fs₁ macosDst then
    (fs₁, [Action.copy frameDst fnm₁])
  else
    (⟨fs₁.files, alUpdate fs₁.links macosDst frameDst⟩,
      [Action.copy frameDst fnm₁, Action.link macosDst frameDst])

/-- Line 218: the data-path skip condition — a dotted segment in the parent,
or shared-library suffix on the internal name. -/
def dataSkip (inm : String) : Bool :=
  (pathParts inm).dropLast.any segHasDot
    || (pySuffix (pathName (pathParts inm)) == ".so")

/-- Data path, lines 217-234: skip entirely when `dataSkip` holds; otherwise
copy to `ResourcesDir` at the internal path (the copy on line 227 is
unconditional, the existence check on line 222 only guards directory
creation) and symlink the `MacOSDir` path to it, guarded by
`macos_dst.exists()` (line 229). -/
def dataPlace (fs : FS) (e : Entry) : FS × List Action :=
  if dataSkip e.inm then (fs, [])
  else
    let parts := pathParts e.inm
    let resDst : Dest := ⟨BDir.resources, parts⟩
    let fs₁ : FS := ⟨alUpdate fs.files resDst e.fnm, fs.links⟩
    let macosDst : Dest := ⟨BDir.macos, parts⟩
    if destExists fs₁ macosDst then
      (fs₁, [Action.copy resDst e.fnm])
    else
      (⟨fs₁.files, alUpdate fs₁.links macosDst resDst⟩,
        [Action.copy resDst e.fnm, Action.link macosDst resDst])

/-- Direct path, lines 236-242: copy straight into `MacOSDir` at the
internal path; here the copy itself is inside the `macos_dst.exists()`
guard (line 237). -/
def directPlace (fs : FS) (e : Entry) : FS × List Action :=
  let parts := pathParts e.inm
  let macosDst : Dest := ⟨BDir.macos, parts⟩
  if destExists fs macosDst then (fs, [])
  else (⟨alUpdate fs.files macosDst e.fnm, fs.links⟩, [Action.copy macosDst e.fnm])

/-- One iteration of the placement loop (lines 181-242) on an entry already
normalized by `add_suffix_to_extension`. -/
def placeEntry (cache : Entry → String) (fs : FS) (e : Entry) : FS × List Action :=
  match classify e with
  | Branch.binary => binPlace cache fs e
  | Branch.data => dataPlace fs e
  | Branch.direct => directPlace fs e

/-- The whole placement loop over a manifest. -/
def placeManifest (cache : Entry → String) (fs : FS) (toc : List Entry) : FS :=
  toc.foldl (fun s e => (placeEntry cache s e).1) fs

/-! ### Bundle spec builder (`BUNDLE.__init__`) -/

/-- A value of the `Info.plist` dictionary. -/
inductive PVal
  | str (s : String)
  | bool (b : Bool)
deriving DecidableEq, Repr

/-- Errors `__init__` could raise.  `configurationError` is in the type so
that the claimed failure mode is statable; the executable scan (lines
101-104) in fact raises nothing. -/
inductive BuildError
  | configurationError
deriving DecidableEq, Repr

/-- Errors arising during `assemble`.  Accessing the never-assigned
`self.exename` attribute (line 156) raises `AttributeError`. -/
inductive AsmError
  | attributeError
deriving DecidableEq, Repr

/-- The spec attributes of the `BUNDLE` target that the assembly reads. -/
structure BundleState where
  appname : String
  bundle_identifier : String
  version : String
  console : Bool
  exename : Option String
  info_plist : Option (List (String × PVal))
deriving DecidableEq, Repr

/-- The predicate of the executable scan: `typ == "EXECUTABLE"`. -/
def isExecEntry (e : Entry) : Bool := e.typ == "EXECUTABLE"

/-- Line 55: `appname = os.path.splitext(base_name)[0]` where
`base_name = os.path.basename(self.name)`. -/
def appnameOf (name : String) : String := splitextRoot (osBasename name)

/-- Lines 66-69: the bundle identifier is the keyword argument if it is
truthy (present and nonempty), else the app name. -/
def bundleIdentifierOf (kw : Option String) (name : String) : String :=
  match kw with
  | some s => if s = "" then appnameOf name else s
  | none => appnameOf name

/-- Lines 50-105 of `BUNDLE.__init__`, after the argument loop has merged
the manifest: derive app name, bundle identifier, and the executable name
from the first `EXECUTABLE` entry of the merged manifest.  When no such
entry exists the loop simply terminates and `self.exename` is never
assigned; no exception is raised here. -/
def buildSpecInit (name : String) (bundleIdKw : Option String) (version : String)
    (console : Bool) (infoPlist : Option (List (String × PVal)))
    (toc : List Entry) : Except BuildError BundleState :=
  Except.ok
    { appname := appnameOf name
      bundle_identifier := bundleIdentifierOf bundleIdKw name
      version := version
      console := console
      exename := (toc.find? isExecEntry).map (fun e => e.fnm)
      info_plist := infoPlist }

/-! ### Metadata writer (`assemble`, lines 142-177) -/

/-- Lines 142-173: the `Info.plist` dictionary — eight required keys, then
exactly one conditional default (`LSBackgroundOnly := true` when
`console`, else `NSHighResolutionCapable := true`), then the
caller-supplied `info_plist` overrides applied by `dict.update` (skipped
when not a nonempty dict). -/
def infoPlistDict (appname bundleId exename icon version : String) (console : Bool)
    (overrides : Option (List (String × PVal))) : List (String × PVal) :=
  let d : List (String × PVal) :=
    [("CFBundleDisplayName", PVal.str appname),
     ("CFBundleName", PVal.str appname),
     ("CFBundleIdentifier", PVal.str bundleId),
     ("CFBundleExecutable", PVal.str (osBasename exename)),
     ("CFBundleIconFile", PVal.str (osBasename icon)),
     ("CFBundleInfoDictionaryVersion", PVal.str "6.0"),
     ("CFBundlePackageType", PVal.str "APPL"),
     ("CFBundleShortVersionString", PVal.str version)]
  let d :=
    if console then alUpdate d "LSBackgroundOnly" (PVal.bool true)
    else alUpdate d "NSHighResolutionCapable" (PVal.bool true)
  match overrides with
  | some ov => if ov = [] then d else ov.foldl (fun m kv => alUpdate m kv.1 kv.2) d
  | none => d

/-- Building the plist from the bundle state: reading `self.exename` raises
`AttributeError` when it was never assigned. -/
def mkInfoPlist (st : BundleState) (icon : String) :
    Except AsmError (List (String × PVal)) :=
  match st.exename with
  | none => Except.error AsmError.attributeError
  | some exe =>
      Except.ok (infoPlistDict st.appname st.bundle_identifier exe icon
        st.version st.console st.info_plist)

/-! ### Assembly pipeline (`BUNDLE.assemble`) -/

/-- The observable outcome of `assemble`: the bundle tree, the plist, the
warnings logged, and whether the final success message was reached. -/
structure AssembleOutput where
  tree : FS
  plist : List (String × PVal)
  warnings : List String
  success : Bool
deriving DecidableEq, Repr

/-- `assemble`: scaffold a fresh tree (any prior tree was removed; the icon
is copied into `Resources` under its base name, line 139), build and write
the plist, run the placement loop, then invoke the signer (modelled by its
result `signResult`); a signing exception is caught and turned into two
warnings (lines 247-251), and the closing success log (line 253) is reached
either way. -/
def assemble (cache : Entry → String) (st : BundleState) (toc : List Entry)
    (icon : String) (signResult : Except String Unit) :
    Except AsmError AssembleOutput := do
  let fs₀ : FS := ⟨[(⟨BDir.resources, [osBasename icon]⟩, icon)], []⟩
  let plist ← mkInfoPlist st icon
  let fs₁ := placeManifest cache fs₀ toc
  match signResult with
  | Except.ok _ => Except.ok ⟨fs₁, plist, [], true⟩
  | Except.error e =>
      Except.ok ⟨fs₁, plist,
        ["Error while signing the bundle: " ++ e,
         "You will need to sign the bundle manually!"], true⟩

/-! ### Helper lemmas on association lists -/

theorem alLookup_alUpdate_self {κ α : Type} [DecidableEq κ]
    (m : List (κ × α)) (k : κ) (v : α) :
    alLookup (alUpdate m k v) k = some v := by
  induction m with
  | nil => simp [alUpdate, alLookup]
  | cons kv rest ih =>
      obtain ⟨k₁, v₁⟩ := kv
      by_cases h : k₁ = k
      · simp [alUpdate, h, alLookup]
      · simp [alUpdate, h, alLookup, ih]

theorem alLookup_alUpdate_ne {κ α : Type} [DecidableEq κ]
    (m : List (κ × α)) (k k₂ : κ) (v : α) (h : k₂ ≠ k) :
    alLookup (alUpdate m k v) k₂ = alLookup m k₂ := by
  induction m with
  | nil => simp [alUpdate, alLookup, Ne.symm h]
  | cons kv rest ih =>
      obtain ⟨k₁, v₁⟩ := kv
      by_cases h₁ : k₁ = k
      · subst h₁
        simp [alUpdate, alLookup, Ne.symm h]
      · simp [alUpdate, h₁, alLookup, ih]

theorem alUpdate_idem {κ α : Type} [DecidableEq κ]
    (m : List (κ × α)) (k : κ) (v : α) :
    alUpdate (alUpdate m k v) k v = alUpdate m k v := by
  induction m with
  | nil => simp [alUpdate]
  | cons kv rest ih =>
      obtain ⟨k₁, v₁⟩ := kv
      by_cases h : k₁ = k
      · simp [alUpdate, h]
      · simp [alUpdate, h, ih]

theorem alLookup_foldl_update_notmem {κ α : Type} [DecidableEq κ]
    (ov : List (κ × α)) (d : List (κ × α)) (k : κ) (h : k ∉ ov.map Prod.fst) :
    alLookup (ov.foldl (fun m kv => alUpdate m kv.1 kv.2) d) k = alLookup d k := by
  induction ov generalizing d with
  | nil => simp
  | cons kv rest ih =>
      obtain ⟨k₁, v₁⟩ := kv
      simp only [List.map_cons, List.mem_cons, not_or] at h
      simp only [List.foldl_cons]
      rw [ih _ h.2, alLookup_alUpdate_ne _ _ _ _ h.1]

theorem alLookup_foldl_update_mem {κ α : Type} [DecidableEq κ]
    (ov : List (κ × α)) (d : List (κ × α)) (k : κ) (v : α)
    (hnd : (ov.map Prod.fst).Nodup) (hmem : (k, v) ∈ ov) :
    alLookup (ov.foldl (fun m kv => alUpdate m kv.1 kv.2) d) k = some v := by
  induction ov generalizing d with
  | nil => simp at hmem
  | cons kv rest ih =>
      obtain ⟨k₁, v₁⟩ := kv
      simp only [List.map_cons, List.nodup_cons] at hnd
      rcases List.mem_cons.mp hmem with heq | hrest
      · obtain ⟨rfl, rfl⟩ := Prod.mk.injEq .. ▸ heq
        have hk : (k, v).1 ∉ rest.map Prod.fst := by
          simpa using hnd.1
        simp only [List.foldl_cons]
        rw [alLookup_foldl_update_notmem _ _ _ hk, alLookup_alUpdate_self]
      · simp only [List.foldl_cons]
        exact ih _ hnd.2 hrest

/-- `destExists` is unaffected by a files update at a different destination. -/
theorem destExists_files_update_ne (fs : FS) (d k : Dest) (v : String) (h : d ≠ k) :
    destExists ⟨alUpdate fs.files k v, fs.links⟩ d = destExists fs d := by
  simp [destExists, alLookup_alUpdate_ne _ _ _ _ h]

/-! ### Idempotence of the placement step -/

theorem binPlace_idem (cache : Entry → String) (fs : FS) (e : Entry) :
    (binPlace cache (binPlace cache fs e).1 e).1 = (binPlace cache fs e).1 := by
  unfold binPlace
  by_cases h :
      destExists ⟨alUpdate fs.files ⟨BDir.frameworks, binDestParts e.inm⟩ (cache e), fs.links⟩
        ⟨BDir.macos, binDestParts e.inm⟩ = true
  · simp only [h, if_true, alUpdate_idem, h]
  · rw [if_neg h]
    simp only [alUpdate_idem]
    have hl : destExists
        ⟨alUpdate fs.files ⟨BDir.frameworks, binDestParts e.inm⟩ (cache e),
          alUpdate fs.links ⟨BDir.macos, binDestParts e.inm⟩
            ⟨BDir.frameworks, binDestParts e.inm⟩⟩
        ⟨BDir.macos, binDestParts e.inm⟩ = true := by
      simp [destExists, alLookup_alUpdate_self]
    rw [if_pos hl]

theorem dataPlace_idem (fs : FS) (e : Entry) :
    (dataPlace (dataPlace fs e).1 e).1 = (dataPlace fs e).1 := by
  unfold dataPlace
  by_cases hs : dataSkip e.inm = true
  · simp [hs]
  · rw [if_neg hs, if_neg hs]
    by_cases h :
        destExists ⟨alUpdate fs.files ⟨BDir.resources, pathParts e.inm⟩ e.fnm, fs.links⟩
          ⟨BDir.macos, pathParts e.inm⟩ = true
    · simp only [h, if_true, alUpdate_idem, h]
    · rw [if_neg h]
      simp only [alUpdate_idem]
      have hl : destExists
          ⟨alUpdate fs.files ⟨BDir.resources, pathParts e.inm⟩ e.fnm,
            alUpdate fs.links ⟨BDir.macos, pathParts e.inm⟩
              ⟨BDir.resources, pathParts e.inm⟩⟩
          ⟨BDir.macos, pathParts e.inm⟩ = true := by
        simp [destExists, alLookup_alUpdate_self]
      rw [if_pos hl]

theorem directPlace_idem (fs : FS) (e : Entry) :
    (directPlace (directPlace fs e).1 e).1 = (directPlace fs e).1 := by
  unfold directPlace
  by_cases h : destExists fs ⟨BDir.macos, pathParts e.inm⟩ = true
  · simp [h]
  · rw [if_neg h]
    have hl : destExists ⟨alUpdate fs.files ⟨BDir.macos, pathParts e.inm⟩ e.fnm, fs.links⟩
        ⟨BDir.macos, pathParts e.inm⟩ = true := by
      simp [destExists, alLookup_alUpdate_self]
    rw [if_pos hl]

theorem placeEntry_idem (cache : Entry → String) (fs : FS) (e : Entry) :
    (placeEntry cache (placeEntry cache fs e).1 e).1 = (placeEntry cache fs e).1 := by
  unfold placeEntry
  cases classify e
  · exact binPlace_idem cache fs e
  · exact dataPlace_idem fs e
  · exact directPlace_idem fs e

/-! ### Claim theorems -/

/-- C1 (counterexample): the claim says the copy into `FrameworksDir` is
performed only if the destination does not already exist.  In the code the
`frame_dst.exists()` check (line 203) guards only the directory creation,
while `shutil.copy` (line 208) runs unconditionally: placing the same
binary entry a second time performs the copy again even though the
destination already exists. -/
theorem framework_copy_unguarded_cex :
    destExists
      ((placeEntry (fun en => en.fnm) ⟨[], []⟩
          ⟨"libfoo.so", "/b/libfoo.so", "BINARY"⟩).1)
      ⟨BDir.frameworks, ["libfoo.so"]⟩ = true
  ∧ Action.copy ⟨BDir.frameworks, ["libfoo.so"]⟩ "/b/libfoo.so" ∈
      (placeEntry (fun en => en.fnm)
        ((placeEntry (fun en => en.fnm) ⟨[], []⟩
            ⟨"libfoo.so", "/b/libfoo.so", "BINARY"⟩).1)
        ⟨"libfoo.so", "/b/libfoo.so", "BINARY"⟩).2 := by
  decide

/-- C1 (amended): re-processing a duplicate manifest entry is a no-op for
the resulting tree — the symbolic link from `MacOSDir` is existence-guarded,
and the physical copy, though re-performed unconditionally, overwrites the
destination with the same content — so placing a manifest containing the
same entry twice yields the same tree as placing it once. -/
theorem duplicate_entry_same_tree (cache : Entry → String) (fs : FS) (e : Entry) :
    (placeEntry cache (placeEntry cache fs e).1 e).1 = (placeEntry cache fs e).1
  ∧ placeManifest cache fs [e, e] = placeManifest cache fs [e] := by
  refine ⟨placeEntry_idem cache fs e, ?_⟩
  simp only [placeManifest, List.foldl_cons, List.foldl_nil]
  exact placeEntry_idem cache fs e

/-- C2: exactly one placement branch applies to every entry, by the
first-match classification — `EXTENSION`/`BINARY`, or `DATA` with the
`.so` suffix on the internal name, select the binary path; any other
`DATA` entry the data path; every remaining kind the direct path; the
classification is total. -/
theorem classification_complete (e : Entry) :
    ((e.typ = "EXTENSION" ∨ e.typ = "BINARY" ∨
        (e.typ = "DATA" ∧ pySuffix (pathName (pathParts e.inm)) = ".so")) →
      classify e = Branch.binary)
  ∧ ((e.typ = "DATA" ∧ pySuffix (pathName (pathParts e.inm)) ≠ ".so") →
      classify e = Branch.data)
  ∧ ((e.typ ≠ "EXTENSION" ∧ e.typ ≠ "BINARY" ∧ e.typ ≠ "DATA") →
      classify e = Branch.direct)
  ∧ (classify e = Branch.binary ∨ classify e = Branch.data ∨
      classify e = Branch.direct) := by
  unfold classify
  refine ⟨?_, ?_, ?_, ?_⟩
  · intro h
    rw [if_pos h]
  · rintro ⟨hd, hs⟩
    have h₁ : ¬(e.typ = "EXTENSION" ∨ e.typ = "BINARY" ∨
        (e.typ = "DATA" ∧ pySuffix (pathName (pathParts e.inm)) = ".so")) := by
      rw [hd]
      simp [hs]
    rw [if_neg h₁, if_pos hd]
  · rintro ⟨h₁, h₂, h₃⟩
    have hb : ¬(e.typ = "EXTENSION" ∨ e.typ = "BINARY" ∨
        (e.typ = "DATA" ∧ pySuffix (pathName (pathParts e.inm)) = ".so")) := by
      simp [h₁, h₂, h₃]
    rw [if_neg hb, if_neg h₃]
  · split
    · exact Or.inl rfl
    · split
      · exact Or.inr (Or.inl rfl)
      · exact Or.inr (Or.inr rfl)

/-- Witness for C2 at concrete entries of each branch. -/
theorem classification_complete_witness :
    classify ⟨"libfoo.so", "/b/libfoo.so", "EXTENSION"⟩ = Branch.binary
  ∧ classify ⟨"x.so", "/b/x.so", "DATA"⟩ = Branch.binary
  ∧ classify ⟨"data/readme.txt", "/b/r.txt", "DATA"⟩ = Branch.data
  ∧ classify ⟨"myapp", "/b/myapp", "EXECUTABLE"⟩ = Branch.direct :=
  ⟨(classification_complete _).1 (Or.inl rfl),
   (classification_complete _).1 (Or.inr (Or.inr ⟨rfl, by decide⟩)),
   (classification_complete _).2.1 ⟨rfl, by decide⟩,
   (classification_complete _).2.2.1 ⟨by decide, by decide, by decide⟩⟩

/-- C4: a `DATA`-classified entry with a dotted segment in its parent path,
or with the `.so` suffix, is skipped entirely (the tree is unchanged and no
write is performed); every other `DATA`-classified entry is copied to
`ResourcesDir` at its internal path, with a symbolic link from the
corresponding `MacOSDir` path when nothing exists there yet. -/
theorem data_path_placement (cache : Entry → String) (fs : FS) (e : Entry)
    (hc : classify e = Branch.data) :
    (((pathParts e.inm).dropLast.any segHasDot = true ∨
        pySuffix (pathName (pathParts e.inm)) = ".so") →
      (placeEntry cache fs e).1 = fs ∧ (placeEntry cache fs e).2 = [])
  ∧ (((pathParts e.inm).dropLast.any segHasDot = false ∧
        pySuffix (pathName (pathParts e.inm)) ≠ ".so") →
      alLookup (placeEntry cache fs e).1.files ⟨BDir.resources, pathParts e.inm⟩
          = some e.fnm
        ∧ (destExists fs ⟨BDir.macos, pathParts e.inm⟩ = false →
            alLookup (placeEntry cache fs e).1.links ⟨BDir.macos, pathParts e.inm⟩
              = some ⟨BDir.resources, pathParts e.inm⟩)) := by
  have hpe : placeEntry cache fs e = dataPlace fs e := by
    unfold placeEntry
    rw [hc]
  constructor
  · intro h
    have hs : dataSkip e.inm = true := by
      unfold dataSkip
      rcases h with h | h
      · simp [h]
      · simp [h]
    rw [hpe]
    unfold dataPlace
    rw [if_pos hs]
    exact ⟨rfl, rfl⟩
  · rintro ⟨h₁, h₂⟩
    have hs : ¬(dataSkip e.inm = true) := by
      unfold dataSkip
      simp [h₁, h₂]
    rw [hpe]
    unfold dataPlace
    rw [if_neg hs]
    constructor
    · by_cases hm :
          destExists ⟨alUpdate fs.files ⟨BDir.resources, pathParts e.inm⟩ e.fnm, fs.links⟩
            ⟨BDir.macos, pathParts e.inm⟩ = true
      · rw [if_pos hm]
        exact alLookup_alUpdate_self fs.files _ e.fnm
      · rw [if_neg hm]
        exact alLookup_alUpdate_self fs.files _ e.fnm
    · intro hnm
      have hne : (⟨BDir.macos, pathParts e.inm⟩ : Dest) ≠ ⟨BDir.resources, pathParts e.inm⟩ := by
        intro hcon
        exact absurd (congrArg Dest.dir hcon) (by intro hd; cases hd)
      have hm :
          destExists ⟨alUpdate fs.files ⟨BDir.resources, pathParts e.inm⟩ e.fnm, fs.links⟩
            ⟨BDir.macos, pathParts e.inm⟩ = false := by
        rw [destExists_files_update_ne _ _ _ _ hne]
        exact hnm
      rw [if_neg (by simp [hm])]
      exact alLookup_alUpdate_self fs.links _ _

/-- Witness for C4: a dotted-parent data entry is skipped; a plain data
entry is copied into `Resources` and linked from `MacOS`. -/
theorem data_path_placement_witness :
    ((placeEntry (fun en => en.fnm) ⟨[], []⟩
        ⟨"pkg-1.0.egg-info/PKG-INFO", "/b/PKG-INFO", "DATA"⟩).1 = ⟨[], []⟩
      ∧ (placeEntry (fun en => en.fnm) ⟨[], []⟩
          ⟨"pkg-1.0.egg-info/PKG-INFO", "/b/PKG-INFO", "DATA"⟩).2 = [])
  ∧ (alLookup (placeEntry (fun en => en.fnm) ⟨[], []⟩
        ⟨"data/readme.txt", "/b/readme.txt", "DATA"⟩).1.files
        ⟨BDir.resources, ["data", "readme.txt"]⟩ = some "/b/readme.txt"
      ∧ alLookup (placeEntry (fun en => en.fnm) ⟨[], []⟩
          ⟨"data/readme.txt", "/b/readme.txt", "DATA"⟩).1.links
          ⟨BDir.macos, ["data", "readme.txt"]⟩
          = some ⟨BDir.resources, ["data", "readme.txt"]⟩) := by
  constructor
  · exact (data_path_placement (fun en => en.fnm) ⟨[], []⟩
      ⟨"pkg-1.0.egg-info/PKG-INFO", "/b/PKG-INFO", "DATA"⟩ (by decide)).1
      (Or.inl (by decide))
  · have h := (data_path_placement (fun en => en.fnm) ⟨[], []⟩
      ⟨"data/readme.txt", "/b/readme.txt", "DATA"⟩ (by decide)).2
      ⟨by decide, by decide⟩
    exact ⟨by simpa using h.1, by simpa using h.2 (by decide)⟩

/-- C7: in the binary path, an entry whose internal name's parent contains
a dotted segment is collapsed to its base file name, so the physical file
lands directly under `FrameworksDir` at the base name; otherwise the full
internal path under `FrameworksDir` is kept. -/
theorem binary_path_dotted_collapse (cache : Entry → String) (fs : FS) (e : Entry)
    (hc : classify e = Branch.binary) :
    ((pathParts e.inm).dropLast.any segHasDot = true →
      alLookup (placeEntry cache fs e).1.files
        ⟨BDir.frameworks, [pathName (pathParts e.inm)]⟩ = some (cache e))
  ∧ ((pathParts e.inm).dropLast.any segHasDot = false →
      alLookup (placeEntry cache fs e).1.files
        ⟨BDir.frameworks, pathParts e.inm⟩ = some (cache e)) := by
  have hpe : placeEntry cache fs e = binPlace cache fs e := by
    unfold placeEntry
    rw [hc]
  have hfiles : (binPlace cache fs e).1.files
      = alUpdate fs.files ⟨BDir.frameworks, binDestParts e.inm⟩ (cache e) := by
    unfold binPlace
    by_cases hm : destExists
        ⟨alUpdate fs.files ⟨BDir.frameworks, binDestParts e.inm⟩ (cache e), fs.links⟩
        ⟨BDir.macos, binDestParts e.inm⟩ = true
    · rw [if_pos hm]
    · rw [if_neg hm]
  rw [hpe]
  constructor
  · intro h
    have hbd : binDestParts e.inm = [pathName (pathParts e.inm)] := by
      unfold binDestParts
      rw [if_pos h]
    rw [hfiles, hbd]
    exact alLookup_alUpdate_self fs.files _ _
  · intro h
    have hbd : binDestParts e.inm = pathParts e.inm := by
      unfold binDestParts
      rw [if_neg (by simp [h])]
    rw [hfiles, hbd]
    exact alLookup_alUpdate_self fs.files _ _

/-- Witness for C7: an egg-info-style parent collapses to the base name; a
plain package path is kept in full. -/
theorem binary_path_dotted_collapse_witness :
    alLookup (placeEntry (fun en => en.fnm) ⟨[], []⟩
        ⟨"numpy-1.0.egg-info/libx.so", "/b/libx.so", "BINARY"⟩).1.files
      ⟨BDir.frameworks, ["libx.so"]⟩ = some "/b/libx.so"
  ∧ alLookup (placeEntry (fun en => en.fnm) ⟨[], []⟩
        ⟨"pkg/libx.so", "/b/libx.so", "BINARY"⟩).1.files
      ⟨BDir.frameworks, ["pkg", "libx.so"]⟩ = some "/b/libx.so" := by
  constructor
  · have h := (binary_path_dotted_collapse (fun en => en.fnm) ⟨[], []⟩
      ⟨"numpy-1.0.egg-info/libx.so", "/b/libx.so", "BINARY"⟩ (by decide)).1 (by decide)
    simpa using h
  · have h := (binary_path_dotted_collapse (fun en => en.fnm) ⟨[], []⟩
      ⟨"pkg/libx.so", "/b/libx.so", "BINARY"⟩ (by decide)).2 (by decide)
    simpa using h

/-- C3 (counterexample): a manifest with zero `EXECUTABLE` entries does not
make spec building fail — `buildSpecInit` returns a state (the executable
scan, lines 101-104, raises nothing when the loop finds no match). -/
theorem no_executable_spec_build_succeeds_cex :
    (buildSpecInit "myapp.app" none "0.0.0" true none
        [⟨"readme.txt", "/b/readme.txt", "DATA"⟩]).isOk = true
  ∧ List.find? isExecEntry [(⟨"readme.txt", "/b/readme.txt", "DATA"⟩ : Entry)]
      = none := by
  decide

/-- C3 (amended): a manifest with zero `EXECUTABLE` entries does not raise
`ConfigurationError` during spec building; the build succeeds with the
executable name unset, and the failure surfaces only later, when the
metadata step reads the missing attribute (an `AttributeError`, after the
skeleton has been created); with an `EXECUTABLE` entry present, spec
building succeeds and records the first one found. -/
theorem executable_scan_no_config_error (name version icon : String) (console : Bool)
    (bundleIdKw : Option String) (infoPlist : Option (List (String × PVal)))
    (toc : List Entry) :
    (toc.find? isExecEntry = none →
      ∃ st, buildSpecInit name bundleIdKw version console infoPlist toc = Except.ok st
        ∧ st.exename = none
        ∧ mkInfoPlist st icon = Except.error AsmError.attributeError)
  ∧ (∀ e, toc.find? isExecEntry = some e →
      ∃ st, buildSpecInit name bundleIdKw version console infoPlist toc = Except.ok st
        ∧ st.exename = some e.fnm) := by
  constructor
  · intro h
    refine ⟨_, rfl, ?_, ?_⟩
    · simp [buildSpecInit, h]
    · simp [mkInfoPlist, buildSpecInit, h]
  · intro e h
    refine ⟨_, rfl, ?_⟩
    simp [buildSpecInit, h]

/-- Witness for C3 (amended) at a zero-`EXECUTABLE` and a one-`EXECUTABLE`
manifest. -/
theorem executable_scan_no_config_error_witness :
    (∃ st, buildSpecInit "app.app" none "1.0" true none
          [⟨"d.txt", "/b/d.txt", "DATA"⟩] = Except.ok st
        ∧ st.exename = none
        ∧ mkInfoPlist st "i.icns" = Except.error AsmError.attributeError)
  ∧ (∃ st, buildSpecInit "app.app" none "1.0" true none
          [⟨"myapp", "/b/myapp", "EXECUTABLE"⟩] = Except.ok st
        ∧ st.exename = some "/b/myapp") :=
  ⟨(executable_scan_no_config_error "app.app" "1.0" "i.icns" true none none
      [⟨"d.txt", "/b/d.txt", "DATA"⟩]).1 (by decide),
   (executable_scan_no_config_error "app.app" "1.0" "i.icns" true none none
      [⟨"myapp", "/b/myapp", "EXECUTABLE"⟩]).2
     ⟨"myapp", "/b/myapp", "EXECUTABLE"⟩ (by decide)⟩

/-- Modelled from the spec: the claimed "app name with filesystem-unsafe
characters stripped" — no stripping routine exists in the source
(`BUNDLE.__init__` falls back to `self.appname` verbatim, lines 66-69), so
the spec's transformation is modelled here: remove characters unsafe in
file names. -/
def stripUnsafeChars (s : String) : String :=
  ⟨s.toList.filter (fun c => !(['/', ':', '*', '?', '<', '>', '|'].contains c))⟩

/-- C8 (counterexample): for an app name containing a filesystem-unsafe
character, the defaulted bundle identifier keeps the character, differing
from the spec's stripped form. -/
theorem bundle_identifier_not_stripped_cex :
    bundleIdentifierOf none "my*app.app" = "my*app"
  ∧ stripUnsafeChars (appnameOf "my*app.app") = "myapp"
  ∧ ("my*app" : String) ≠ "myapp" := by
  decide

/-- C8 (amended): when no bundle identifier is supplied (absent or empty),
the identifier defaults to the app name verbatim — the base name of the
bundle's output path with its extension removed — with no characters
stripped. -/
theorem bundle_identifier_default_verbatim (name version : String) (console : Bool)
    (infoPlist : Option (List (String × PVal))) (toc : List Entry) :
    bundleIdentifierOf none name = splitextRoot (osBasename name)
  ∧ bundleIdentifierOf (some "") name = splitextRoot (osBasename name)
  ∧ (∀ st, buildSpecInit name none version console infoPlist toc = Except.ok st →
      st.bundle_identifier = splitextRoot (osBasename name)) := by
  refine ⟨rfl, by simp [bundleIdentifierOf, appnameOf], ?_⟩
  intro st h
  have : st = { appname := appnameOf name
                bundle_identifier := bundleIdentifierOf none name
                version := version
                console := console
                exename := (toc.find? isExecEntry).map (fun e => e.fnm)
                info_plist := infoPlist } := by
    simpa [buildSpecInit] using h.symm
  rw [this]
  rfl

/-- Witness for C8 (amended) at a concrete bundle name. -/
theorem bundle_identifier_default_verbatim_witness :
    bundleIdentifierOf none "My App.app" = "My App"
  ∧ bundleIdentifierOf (some "") "My App.app" = "My App"
  ∧ ({ appname := "My App", bundle_identifier := "My App", version := "1.0",
       console := true, exename := none,
       info_plist := none } : BundleState).bundle_identifier = "My App" := by
  have h := bundle_identifier_default_verbatim "My App.app" "1.0" true none []
  refine ⟨by simpa using h.1, by simpa using h.2.1, ?_⟩
  have h₃ := h.2.2
    { appname := "My App", bundle_identifier := "My App", version := "1.0",
      console := true, exename := none, info_plist := none } (by rfl)
  exact h₃.trans (by decide)

/-- C5: the metadata writer applies exactly one conditional default —
`LSBackgroundOnly := true` for a console app, otherwise
`NSHighResolutionCapable := true` — and caller-supplied overrides win
unconditionally: every key of the override mapping carries its override
value in the final descriptor, conditional defaults included. -/
theorem info_plist_default_and_override (appname bundleId exename icon version : String)
    (console : Bool) (ov : List (String × PVal)) (k : String) (v : PVal) :
    (alLookup (infoPlistDict appname bundleId exename icon version true none)
        "LSBackgroundOnly" = some (PVal.bool true)
      ∧ alLookup (infoPlistDict appname bundleId exename icon version true none)
          "NSHighResolutionCapable" = none)
  ∧ (alLookup (infoPlistDict appname bundleId exename icon version false none)
        "NSHighResolutionCapable" = some (PVal.bool true)
      ∧ alLookup (infoPlistDict appname bundleId exename icon version false none)
          "LSBackgroundOnly" = none)
  ∧ ((ov.map Prod.fst).Nodup → (k, v) ∈ ov →
      alLookup (infoPlistDict appname bundleId exename icon version console (some ov)) k
        = some v) := by
  refine ⟨⟨?_, ?_⟩, ⟨?_, ?_⟩, ?_⟩
  · simp [infoPlistDict, alUpdate, alLookup]
  · simp [infoPlistDict, alUpdate, alLookup]
  · simp [infoPlistDict, alUpdate, alLookup]
  · simp [infoPlistDict, alUpdate, alLookup]
  · intro hnd hmem
    have hne : ov ≠ [] := by
      intro hcon
      rw [hcon] at hmem
      simp at hmem
    simp only [infoPlistDict, if_neg hne]
    exact alLookup_foldl_update_mem ov _ k v hnd hmem

/-- Witness for C5: a console-mode descriptor with an override setting
`LSBackgroundOnly` to false ends up with `LSBackgroundOnly = false`. -/
theorem info_plist_default_and_override_witness :
    alLookup (infoPlistDict "app" "app" "/b/exe" "i.icns" "1.0" true
        (some [("LSBackgroundOnly", PVal.bool false)])) "LSBackgroundOnly"
      = some (PVal.bool false)
  ∧ alLookup (infoPlistDict "app" "app" "/b/exe" "i.icns" "1.0" true none)
      "LSBackgroundOnly" = some (PVal.bool true) :=
  ⟨(info_plist_default_and_override "app" "app" "/b/exe" "i.icns" "1.0" true
      [("LSBackgroundOnly", PVal.bool false)] "LSBackgroundOnly" (PVal.bool false)).2.2
    (by decide) (by decide),
   (info_plist_default_and_override "app" "app" "/b/exe" "i.icns" "1.0" true
      [] "x" (PVal.bool false)).1.1⟩

/-- C6: an exception from the signing collaborator is caught and downgraded
to warnings — assembly still returns successfully, reports overall success,
and produces exactly the tree and descriptor of the unsigned (successful
signing) case. -/
theorem signing_failure_nonfatal (cache : Entry → String) (st : BundleState)
    (toc : List Entry) (icon : String) (msg : String) :
    (assemble cache st toc icon (Except.error msg)).map
        (fun o => (o.tree, o.plist, o.success))
      = (assemble cache st toc icon (Except.ok ())).map
          (fun o => (o.tree, o.plist, o.success))
  ∧ (∀ o, assemble cache st toc icon (Except.error msg) = Except.ok o →
      o.success = true ∧ o.warnings ≠ []) := by
  unfold assemble
  cases h : mkInfoPlist st icon with
  | error err =>
      constructor
      · rfl
      · intro o ho
        exact Except.noConfusion
          (show (Except.error err : Except AsmError AssembleOutput) = Except.ok o from ho)
  | ok p =>
      constructor
      · rfl
      · intro o ho
        have hrec :=
          Except.ok.inj
            (show Except.ok
                ({ tree := placeManifest cache
                      ⟨[(⟨BDir.resources, [osBasename icon]⟩, icon)], []⟩ toc,
                   plist := p,
                   warnings := ["Error while signing the bundle: " ++ msg,
                                "You will need to sign the bundle manually!"],
                   success := true } : AssembleOutput) = Except.ok o from ho)
        rw [← hrec]
        exact ⟨rfl, by simp⟩

/-- Witness for C6 at a concrete spec, manifest and failure message. -/
theorem signing_failure_nonfatal_witness :
    ({ tree := ⟨[(⟨BDir.resources, ["i.icns"]⟩, "i.icns")], []⟩,
       plist := infoPlistDict "app" "app" "/b/exe" "i.icns" "1.0" true none,
       warnings := ["Error while signing the bundle: boom",
                    "You will need to sign the bundle manually!"],
       success := true } : AssembleOutput).success = true
  ∧ ({ tree := ⟨[(⟨BDir.resources, ["i.icns"]⟩, "i.icns")], []⟩,
       plist := infoPlistDict "app" "app" "/b/exe" "i.icns" "1.0" true none,
       warnings := ["Error while signing the bundle: boom",
                    "You will need to sign the bundle manually!"],
       success := true } : AssembleOutput).warnings ≠ [] :=
  (signing_failure_nonfatal (fun en => en.fnm)
      { appname := "app", bundle_identifier := "app", version := "1.0",
        console := true, exename := some "/b/exe", info_plist := none }
      [] "i.icns" "boom").2 _ (by rfl)

/-- C9 (counterexample): the code stores the `EXECUTABLE` entry's source
path (`self.exename = name`, line 103, the second tuple component), so
`CFBundleExecutable` is the base name of the source path, not the internal
name: for the entry `("alias/myapp", "/build/prog", "EXECUTABLE")` the
descriptor records `"prog"`, which is neither the internal name nor its
base name. -/
theorem cfbundle_executable_internal_name_cex :
    (buildSpecInit "app.app" none "1.0" true none
        [⟨"alias/myapp", "/build/prog", "EXECUTABLE"⟩]).map
      (fun st => (mkInfoPlist st "i.icns").map
        (fun d => alLookup d "CFBundleExecutable"))
      = Except.ok (Except.ok (some (PVal.str "prog")))
  ∧ PVal.str "prog" ≠ PVal.str "myapp"
  ∧ PVal.str "prog" ≠ PVal.str "alias/myapp" :=
  ⟨by rfl, by decide, by decide⟩

/-- C9 (amended): the base name of the first `EXECUTABLE` entry's source
path — not its internal name — becomes the value of the descriptor's
`CFBundleExecutable` key (they coincide exactly when the internal name's
base name equals the source path's base name, as for entries contributed
by an `EXE` target). -/
theorem cfbundle_executable_source_basename (name version icon : String)
    (console : Bool) (bundleIdKw : Option String) (toc : List Entry) (e : Entry)
    (he : toc.find? isExecEntry = some e) :
    ∀ st, buildSpecInit name bundleIdKw version console none toc = Except.ok st →
      ∃ d, mkInfoPlist st icon = Except.ok d
        ∧ alLookup d "CFBundleExecutable" = some (PVal.str (osBasename e.fnm)) := by
  intro st h
  have hst : st = { appname := appnameOf name
                    bundle_identifier := bundleIdentifierOf bundleIdKw name
                    version := version
                    console := console
                    exename := (toc.find? isExecEntry).map (fun x => x.fnm)
                    info_plist := none } := by
    simpa [buildSpecInit] using h.symm
  refine ⟨infoPlistDict (appnameOf name) (bundleIdentifierOf bundleIdKw name) e.fnm icon
      version console none, ?_, ?_⟩
  · rw [hst]
    simp [mkInfoPlist, he]
  · cases console <;> simp [infoPlistDict, alUpdate, alLookup]

/-- Witness for C9 (amended) at a concrete manifest whose executable entry
has distinct internal name and source path. -/
theorem cfbundle_executable_source_basename_witness :
    ∃ d, mkInfoPlist
        { appname := "app", bundle_identifier := "app", version := "1.0",
          console := true, exename := some "/build/prog", info_plist := none } "i.icns"
        = Except.ok d
      ∧ alLookup d "CFBundleExecutable"
          = some (PVal.str (osBasename "/build/prog")) :=
  cfbundle_executable_source_basename "app.app" "1.0" "i.icns" true none
    [⟨"alias/myapp", "/build/prog", "EXECUTABLE"⟩]
    ⟨"alias/myapp", "/build/prog", "EXECUTABLE"⟩ (by rfl)
    { appname := "app", bundle_identifier := "app", version := "1.0",
      console := true, exename := some "/build/prog", info_plist := none } (by rfl)

/-- C10: when the manifest contains more than one `EXECUTABLE` entry, the
first in manifest order silently determines the executable name — spec
building succeeds with the first entry's source path and raises nothing —
and later `EXECUTABLE` entries are still classified to the direct path. -/
theorem first_executable_silently_wins (name version : String) (console : Bool)
    (bundleIdKw : Option String) (infoPlist : Option (List (String × PVal)))
    (xs ys : List Entry) (e₁ : Entry)
    (hx : ∀ x ∈ xs, isExecEntry x = false) (he : isExecEntry e₁ = true) :
    (∃ st, buildSpecInit name bundleIdKw version console infoPlist (xs ++ e₁ :: ys)
        = Except.ok st ∧ st.exename = some e₁.fnm)
  ∧ (∀ e₂ ∈ ys, isExecEntry e₂ = true → classify e₂ = Branch.direct) := by
  constructor
  · have hfind : (xs ++ e₁ :: ys).find? isExecEntry = some e₁ := by
      induction xs with
      | nil => simp [List.find?, he]
      | cons a as ih =>
          have ha : isExecEntry a = false := hx a (by simp)
          have ih₂ := ih (fun x hxm => hx x (by simp [hxm]))
          simpa [List.find?, ha] using ih₂
    exact ⟨_, rfl, by simp [buildSpecInit, hfind]⟩
  · intro e₂ _ he₂
    have ht : e₂.typ = "EXECUTABLE" := by
      simpa [isExecEntry] using he₂
    have h₁ : ¬(e₂.typ = "EXTENSION" ∨ e₂.typ = "BINARY" ∨
        (e₂.typ = "DATA" ∧ pySuffix (pathName (pathParts e₂.inm)) = ".so")) := by
      rw [ht]
      simp
    have h₂ : ¬(e₂.typ = "DATA") := by
      rw [ht]
      simp
    unfold classify
    rw [if_neg h₁, if_neg h₂]

/-- Witness for C10 at a manifest with two `EXECUTABLE` entries. -/
theorem first_executable_silently_wins_witness :
    (∃ st, buildSpecInit "app.app" none "1.0" true none
        ([⟨"d.txt", "/b/d.txt", "DATA"⟩] ++
          (⟨"app1", "/b/app1", "EXECUTABLE"⟩ : Entry) ::
            [⟨"app2", "/b/app2", "EXECUTABLE"⟩]) = Except.ok st
      ∧ st.exename = some "/b/app1")
  ∧ classify ⟨"app2", "/b/app2", "EXECUTABLE"⟩ = Branch.direct := by
  have h := first_executable_silently_wins "app.app" "1.0" true none none
      [⟨"d.txt", "/b/d.txt", "DATA"⟩] [⟨"app2", "/b/app2", "EXECUTABLE"⟩]
      ⟨"app1", "/b/app1", "EXECUTABLE"⟩ (by decide) (by decide)
  exact ⟨h.1, h.2 _ (by simp) (by decide)⟩
